import Mathlib

/-!
Shallow embedding of the `proptest-arbitrary-adapter` crate (`src/lib.rs`):
an adapter exposing an `arbitrary::Arbitrary`-style byte decoder as a
proptest `Strategy` with a prefix-truncation shrinker.

Modelling conventions:
- bytes are `Fin 256`;
- the external decoder `A::arbitrary(Unstructured::new(slice))` is an
  abstract parameter `dec : Decoder α`; the `arbitrary::Error` enum is
  embedded as `ArbError`;
- the mutable `ArbValueTree` methods become explicit state passing:
  `simplify`/`complicate` return `Bool × ArbValueTree α`, `current`
  returns `α × ArbValueTree α` (the `&self` receiver cannot change state);
- the `new_tree` retry loop gets a fuel parameter; the RNG is a stream
  `rng : Nat → Nat → Byte` (iteration index, byte index), `reject_local`
  is a stream of outcomes, and `Display` for errors is a parameter.
-/

namespace PropArb

/-- A byte of the random buffer (`u8`). -/
abbrev Byte := Fin 256

/-- The error enum of the external `arbitrary` crate. -/
inductive ArbError where
  | EmptyChoose
  | NotEnoughData
  | IncorrectFormat
deriving DecidableEq

/-- The external decoding capability:
`A::arbitrary(&mut Unstructured::new(bytes))`. -/
abbrev Decoder (α : Type) := List Byte → Except ArbError α

/-- `pub struct ArbStrategy { size: usize, _ph: PhantomData }`
(the phantom field carries no data and is dropped). -/
structure ArbStrategy where
  size : Nat
deriving DecidableEq

/-- `ArbStrategy::new`. -/
def ArbStrategy.new (size : Nat) : ArbStrategy :=
  { size := size }

/-- `pub struct ArbValueTree { bytes, curr, prev, next }`. -/
structure ArbValueTree (α : Type) where
  bytes : List Byte
  curr : α
  prev : Option α
  next : Nat
deriving DecidableEq

/-- `ArbValueTree::gen_one_with_size`: decode `bytes[0..size]`.
(The Rust slice `&bytes[0..size]` is in bounds whenever `size ≤ bytes.len()`,
which holds at every call site under the cursor invariant; `List.take`
agrees with it there.) -/
def ArbValueTree.gen_one_with_size {α : Type} (dec : Decoder α)
    (bytes : List Byte) (size : Nat) : Except ArbError α :=
  dec (bytes.take size)

/-- `fn current(&self) -> Self::Value { self.curr.clone() }`, in
state-passing form: the returned value together with the (unchanged,
since the receiver is a shared borrow) tree state. -/
def ArbValueTree.current {α : Type} (t : ArbValueTree α) : α × ArbValueTree α :=
  (t.curr, t)

/-- `fn simplify(&mut self) -> bool`: bail out at cursor 0; otherwise
decrement the cursor, re-decode the truncated buffer, and on success shift
`curr` into `prev`. -/
def ArbValueTree.simplify {α : Type} (dec : Decoder α)
    (t : ArbValueTree α) : Bool × ArbValueTree α :=
  if t.next = 0 then
    (false, t)
  else
    match ArbValueTree.gen_one_with_size dec t.bytes (t.next - 1) with
    | .error _ => (false, { t with next := t.next - 1 })
    | .ok simpler =>
      (true, { t with next := t.next - 1, prev := some t.curr, curr := simpler })

/-- `fn complicate(&mut self) -> bool`: `self.prev.take()`; on `Some`,
move it back into `curr`. -/
def ArbValueTree.complicate {α : Type} (t : ArbValueTree α) :
    Bool × ArbValueTree α :=
  match t.prev with
  | none => (false, t)
  | some p => (true, { t with curr := p, prev := none })

/-- `ArbValueTree::new`: decode the buffer at full length; on success build
the tree with `next = bytes.len()`, `prev = None`; the `?` operator
propagates a decode error unchanged. -/
def ArbValueTree.new {α : Type} (dec : Decoder α) (bytes : List Byte) :
    Except ArbError (ArbValueTree α) :=
  match ArbValueTree.gen_one_with_size dec bytes bytes.length with
  | .error e => .error e
  | .ok curr => .ok { bytes := bytes, curr := curr, prev := none, next := bytes.length }

/-- `n` successive `simplify` calls (discarding the boolean results). -/
def ArbValueTree.simplifyN {α : Type} (dec : Decoder α)
    (t : ArbValueTree α) : Nat → ArbValueTree α
  | 0 => t
  | n + 1 => ArbValueTree.simplifyN dec (ArbValueTree.simplify dec t).2 n

/-- `let mut bytes = vec![0; size]; run.rng().fill_bytes(&mut bytes)`:
the `size`-byte buffer drawn at loop iteration `i` from the RNG stream. -/
def fill_bytes (rng : Nat → Nat → Byte) (i size : Nat) : List Byte :=
  (List.range size).map (rng i)

/-- `fn new_tree(&self, run) -> NewTree<Self>`, as a fueled loop.
`rng` is the random stream, `reject` the outcome of the `i`-th
`run.reject_local(msg)` call (`.error` models a fatal abort propagated by
`?`), `toStr` the `Display` rendering `format!` applies to errors.
`none` means the fuel ran out with the loop still spinning. -/
def ArbStrategy.new_tree {α : Type} (s : ArbStrategy) (dec : Decoder α)
    (rng : Nat → Nat → Byte) (reject : Nat → String → Except String Unit)
    (toStr : ArbError → String) :
    Nat → Nat → Option (Except String (ArbValueTree α))
  | 0, _ => none
  | fuel + 1, i =>
    match ArbValueTree.new dec (fill_bytes rng i s.size) with
    | .ok v => some (.ok v)
    | .error .IncorrectFormat =>
      match reject i (toStr .IncorrectFormat) with
      | .ok _ => ArbStrategy.new_tree s dec rng reject toStr fuel (i + 1)
      | .error msg => some (.error msg)
    | .error e => some (.error (toStr e))

/-- `pub fn arb_sized(size)`. -/
def arb_sized (size : Nat) : ArbStrategy :=
  ArbStrategy.new size

/-- `pub fn arb()`: the type-level `A::size_hint` becomes the parameter
`size_hint : Nat → Nat × Option Nat` (depth-indexed, called at depth 0). -/
def arb (size_hint : Nat → Nat × Option Nat) : ArbStrategy :=
  match size_hint 0 with
  | (low, none) => arb_sized (max (2 * low) 256)
  | (_, some high) => arb_sized high

/-! Concrete instances used by the witness theorems. -/

/-- A decoder that always succeeds, returning the slice length. -/
def decLen : Decoder Nat :=
  fun bs => .ok bs.length

/-- A decoder that needs at least two bytes. -/
def decAtLeast2 : Decoder Nat :=
  fun bs => if 2 ≤ bs.length then .ok bs.length else .error .NotEnoughData

/-- A decoder that always rejects with `IncorrectFormat`. -/
def decReject : Decoder Nat :=
  fun _ => .error .IncorrectFormat

/-- A decoder that always fails fatally (`NotEnoughData`). -/
def decFatal : Decoder Nat :=
  fun _ => .error .NotEnoughData

/-- A concrete tree over two zero bytes, cursor at 2. -/
def t2 : ArbValueTree Nat :=
  { bytes := [0, 0], curr := 2, prev := none, next := 2 }

/-- An all-zero RNG stream. -/
def rngZero : Nat → Nat → Byte :=
  fun _ _ => 0

/-- A `reject_local` that always succeeds. -/
def rejOk : Nat → String → Except String Unit :=
  fun _ _ => .ok ()

/-- A `reject_local` whose budget is exhausted: every call aborts. -/
def rejAbort : Nat → String → Except String Unit :=
  fun _ _ => .error "too many local rejects"

/-- A concrete `Display` rendering for `ArbError`. -/
def errStr : ArbError → String
  | .EmptyChoose => "empty choose"
  | .NotEnoughData => "not enough data"
  | .IncorrectFormat => "incorrect format"

/-! Theorems. -/

/-- Helper: a `simplify` call from a nonzero cursor leaves the cursor at
its decremented value, whether or not the truncated decode succeeds. -/
theorem simplify_next_of_ne_zero {α : Type} (dec : Decoder α)
    (u : ArbValueTree α) (h : u.next ≠ 0) :
    (ArbValueTree.simplify dec u).2.next = u.next - 1 := by
  unfold ArbValueTree.simplify
  rw [if_neg h]
  cases hg : ArbValueTree.gen_one_with_size dec u.bytes (u.next - 1) <;> rfl

/-- Helper: `simplify` never touches the byte buffer. -/
theorem simplify_bytes_eq {α : Type} (dec : Decoder α) (u : ArbValueTree α) :
    (ArbValueTree.simplify dec u).2.bytes = u.bytes := by
  unfold ArbValueTree.simplify
  by_cases h : u.next = 0
  · rw [if_pos h]
  · rw [if_neg h]
    cases hg : ArbValueTree.gen_one_with_size dec u.bytes (u.next - 1) <;> rfl

/-- Helper: one `simplify` call never increases the cursor. -/
theorem simplify_next_le {α : Type} (dec : Decoder α) (u : ArbValueTree α) :
    (ArbValueTree.simplify dec u).2.next ≤ u.next := by
  by_cases h : u.next = 0
  · unfold ArbValueTree.simplify
    rw [if_pos h]
  · rw [simplify_next_of_ne_zero dec u h]
    exact Nat.sub_le _ _

/-- Helper: `simplify` at cursor 0 reports no progress and changes nothing. -/
theorem simplify_at_zero {α : Type} (dec : Decoder α) (u : ArbValueTree α)
    (h : u.next = 0) : ArbValueTree.simplify dec u = (false, u) := by
  unfold ArbValueTree.simplify
  rw [if_pos h]

/-- C1: after any successful `simplify()`, the next `complicate()` returns
`true` and restores `current()` to the pre-simplify value; a second
`complicate()` right after returns `false` and leaves the whole tree
unchanged. -/
theorem simplify_then_complicate_roundtrip {α : Type} (dec : Decoder α)
    (t : ArbValueTree α) (h : (ArbValueTree.simplify dec t).1 = true) :
    (ArbValueTree.complicate (ArbValueTree.simplify dec t).2).1 = true ∧
    (ArbValueTree.current
      (ArbValueTree.complicate (ArbValueTree.simplify dec t).2).2).1 =
      (ArbValueTree.current t).1 ∧
    (ArbValueTree.complicate
      (ArbValueTree.complicate (ArbValueTree.simplify dec t).2).2).1 = false ∧
    (ArbValueTree.complicate
      (ArbValueTree.complicate (ArbValueTree.simplify dec t).2).2).2 =
      (ArbValueTree.complicate (ArbValueTree.simplify dec t).2).2 := by
  by_cases h0 : t.next = 0
  · rw [simplify_at_zero dec t h0] at h
    exact absurd h (by simp)
  · cases hg : ArbValueTree.gen_one_with_size dec t.bytes (t.next - 1) with
    | error e =>
      unfold ArbValueTree.simplify at h
      rw [if_neg h0, hg] at h
      exact absurd h (by simp)
    | ok simpler =>
      unfold ArbValueTree.simplify
      rw [if_neg h0, hg]
      exact ⟨rfl, rfl, rfl, rfl⟩

/-- C1 witness: the roundtrip on a concrete tree whose `simplify` succeeds. -/
theorem simplify_then_complicate_roundtrip_witness :
    (ArbValueTree.complicate (ArbValueTree.simplify decLen t2).2).1 = true ∧
    (ArbValueTree.current
      (ArbValueTree.complicate (ArbValueTree.simplify decLen t2).2).2).1 =
      (ArbValueTree.current t2).1 ∧
    (ArbValueTree.complicate
      (ArbValueTree.complicate (ArbValueTree.simplify decLen t2).2).2).1 = false ∧
    (ArbValueTree.complicate
      (ArbValueTree.complicate (ArbValueTree.simplify decLen t2).2).2).2 =
      (ArbValueTree.complicate (ArbValueTree.simplify decLen t2).2).2 :=
  simplify_then_complicate_roundtrip decLen t2 rfl

/-- C2: if the cursor is positive and decoding the buffer truncated to
`next - 1` bytes fails, `simplify()` returns `false`, the cursor stays at
the decremented value, and `bytes`, `curr`, `prev` are unchanged. -/
theorem simplify_decode_failure_state {α : Type} (dec : Decoder α)
    (t : ArbValueTree α) (h0 : 0 < t.next) (e : ArbError)
    (hd : ArbValueTree.gen_one_with_size dec t.bytes (t.next - 1) = .error e) :
    (ArbValueTree.simplify dec t).1 = false ∧
    (ArbValueTree.simplify dec t).2.next = t.next - 1 ∧
    (ArbValueTree.simplify dec t).2.bytes = t.bytes ∧
    (ArbValueTree.simplify dec t).2.curr = t.curr ∧
    (ArbValueTree.simplify dec t).2.prev = t.prev := by
  unfold ArbValueTree.simplify
  rw [if_neg (Nat.pos_iff_ne_zero.mp h0), hd]
  exact ⟨rfl, rfl, rfl, rfl, rfl⟩

/-- C2 witness: a decoder that needs two bytes fails on the one-byte
truncation of a concrete two-byte tree. -/
theorem simplify_decode_failure_state_witness :
    (ArbValueTree.simplify decAtLeast2 t2).1 = false ∧
    (ArbValueTree.simplify decAtLeast2 t2).2.next = t2.next - 1 ∧
    (ArbValueTree.simplify decAtLeast2 t2).2.bytes = t2.bytes ∧
    (ArbValueTree.simplify decAtLeast2 t2).2.curr = t2.curr ∧
    (ArbValueTree.simplify decAtLeast2 t2).2.prev = t2.prev :=
  simplify_decode_failure_state decAtLeast2 t2 (by decide) .NotEnoughData rfl

/-- C9: `complicate()` never touches `next` or `bytes`; hence after a
successful `simplify()` from cursor `L` and the `complicate()` undoing it,
the cursor stays at `L - 1`, and (when `L ≥ 2`) the following `simplify()`
leaves the cursor at `L - 2` — the undone length `L` is never re-tried. -/
theorem complicate_frame_and_no_retry {α : Type} (dec : Decoder α)
    (t : ArbValueTree α) :
    (ArbValueTree.complicate t).2.next = t.next ∧
    (ArbValueTree.complicate t).2.bytes = t.bytes ∧
    ((ArbValueTree.simplify dec t).1 = true →
      (ArbValueTree.complicate (ArbValueTree.simplify dec t).2).2.next =
        t.next - 1 ∧
      (2 ≤ t.next →
        (ArbValueTree.simplify dec
          (ArbValueTree.complicate (ArbValueTree.simplify dec t).2).2).2.next =
          t.next - 2)) := by
  refine ⟨?_, ?_, ?_⟩
  · unfold ArbValueTree.complicate
    cases t.prev <;> rfl
  · unfold ArbValueTree.complicate
    cases t.prev <;> rfl
  · intro h
    have h0 : t.next ≠ 0 := by
      intro hz
      rw [simplify_at_zero dec t hz] at h
      exact absurd h (by simp)
    have hnext :
        (ArbValueTree.complicate (ArbValueTree.simplify dec t).2).2.next =
          t.next - 1 := by
      have hc : ∀ u : ArbValueTree α, (ArbValueTree.complicate u).2.next = u.next := by
        intro u
        unfold ArbValueTree.complicate
        cases u.prev <;> rfl
      rw [hc, simplify_next_of_ne_zero dec t h0]
    refine ⟨hnext, fun h2 => ?_⟩
    have hne : (ArbValueTree.complicate (ArbValueTree.simplify dec t).2).2.next ≠ 0 := by
      rw [hnext]
      omega
    rw [simplify_next_of_ne_zero dec _ hne, hnext]
    omega

/-- C9 witness: on a concrete two-byte tree, simplify–complicate–simplify
moves the cursor 2 → 1 → 1 → 0. -/
theorem complicate_frame_and_no_retry_witness :
    (ArbValueTree.complicate (ArbValueTree.simplify decLen t2).2).2.next =
      t2.next - 1 ∧
    (ArbValueTree.simplify decLen
      (ArbValueTree.complicate (ArbValueTree.simplify decLen t2).2).2).2.next =
      t2.next - 2 :=
  ⟨((complicate_frame_and_no_retry decLen t2).2.2 rfl).1,
    ((complicate_frame_and_no_retry decLen t2).2.2 rfl).2 (by decide)⟩

/-- Helper: any number of `simplify` calls never increases the cursor. -/
theorem simplifyN_next_le {α : Type} (dec : Decoder α) (u : ArbValueTree α)
    (n : Nat) : (ArbValueTree.simplifyN dec u n).next ≤ u.next := by
  induction n generalizing u with
  | zero => exact Nat.le_refl _
  | succ n ih =>
    exact Nat.le_trans (ih (ArbValueTree.simplify dec u).2) (simplify_next_le dec u)

/-- Helper: `simplifyN` splits as composition. -/
theorem simplifyN_add {α : Type} (dec : Decoder α) (u : ArbValueTree α)
    (n k : Nat) :
    ArbValueTree.simplifyN dec u (n + k) =
      ArbValueTree.simplifyN dec (ArbValueTree.simplifyN dec u n) k := by
  induction n generalizing u with
  | zero =>
    rw [Nat.zero_add]
    exact congrArg (fun w => ArbValueTree.simplifyN dec w k) rfl
  | succ n ih =>
    have hadd : n + 1 + k = n + k + 1 := by omega
    rw [hadd]
    exact ih (ArbValueTree.simplify dec u).2

/-- Helper: any number of `simplify` calls leaves the byte buffer intact. -/
theorem simplifyN_bytes_eq {α : Type} (dec : Decoder α) (u : ArbValueTree α)
    (n : Nat) : (ArbValueTree.simplifyN dec u n).bytes = u.bytes := by
  induction n generalizing u with
  | zero => rfl
  | succ n ih =>
    exact (ih (ArbValueTree.simplify dec u).2).trans (simplify_bytes_eq dec u)

/-- C3: over any sequence of `simplify()` calls the cursor is
non-increasing (and, being a natural number, never negative), always at
most `bytes.length` when it starts that way, and once it reaches 0 every
further `simplify()` returns `false` and leaves the tree unchanged. -/
theorem simplify_cursor_monotone_and_bounded {α : Type} (dec : Decoder α)
    (t : ArbValueTree α) (hinv : t.next ≤ t.bytes.length) :
    (∀ n m : Nat, n ≤ m →
      (ArbValueTree.simplifyN dec t m).next ≤
        (ArbValueTree.simplifyN dec t n).next) ∧
    (∀ n : Nat, (ArbValueTree.simplifyN dec t n).next ≤
      (ArbValueTree.simplifyN dec t n).bytes.length) ∧
    (∀ n : Nat, (ArbValueTree.simplifyN dec t n).next = 0 →
      ArbValueTree.simplify dec (ArbValueTree.simplifyN dec t n) =
        (false, ArbValueTree.simplifyN dec t n)) := by
  refine ⟨?_, ?_, ?_⟩
  · intro n m hnm
    have hk : m = n + (m - n) := by omega
    rw [hk, simplifyN_add]
    exact simplifyN_next_le dec _ _
  · intro n
    rw [simplifyN_bytes_eq]
    exact Nat.le_trans (simplifyN_next_le dec t n) hinv
  · intro n hz
    exact simplify_at_zero dec _ hz

/-- C3 witness: the cursor facts at a concrete tree and concrete sequence
lengths. -/
theorem simplify_cursor_monotone_and_bounded_witness :
    t2.next ≤ t2.bytes.length ∧
    (ArbValueTree.simplifyN decLen t2 2).next ≤
      (ArbValueTree.simplifyN decLen t2 1).next ∧
    (ArbValueTree.simplifyN decLen t2 2).next ≤
      (ArbValueTree.simplifyN decLen t2 2).bytes.length ∧
    ArbValueTree.simplify decLen (ArbValueTree.simplifyN decLen t2 2) =
      (false, ArbValueTree.simplifyN decLen t2 2) :=
  ⟨by decide,
    (simplify_cursor_monotone_and_bounded decLen t2 (by decide)).1 1 2 (by decide),
    (simplify_cursor_monotone_and_bounded decLen t2 (by decide)).2.1 2,
    (simplify_cursor_monotone_and_bounded decLen t2 (by decide)).2.2 2 rfl⟩

/-- C4: each iteration of `new_tree` draws a fresh `size`-byte buffer; on
full-buffer decode success it returns the constructed tree; on
`IncorrectFormat` it signals a local rejection and, when that succeeds,
retries with the next fresh buffer; on any other decode error it returns a
fatal strategy error carrying the stringified failure reason. -/
theorem new_tree_loop_cases {α : Type} (s : ArbStrategy) (dec : Decoder α)
    (rng : Nat → Nat → Byte) (reject : Nat → String → Except String Unit)
    (toStr : ArbError → String) (fuel i : Nat) :
    (fill_bytes rng i s.size).length = s.size ∧
    (∀ v, ArbValueTree.new dec (fill_bytes rng i s.size) = .ok v →
      ArbStrategy.new_tree s dec rng reject toStr (fuel + 1) i =
        some (.ok v)) ∧
    (ArbValueTree.new dec (fill_bytes rng i s.size) = .error .IncorrectFormat →
      reject i (toStr .IncorrectFormat) = .ok () →
      ArbStrategy.new_tree s dec rng reject toStr (fuel + 1) i =
        ArbStrategy.new_tree s dec rng reject toStr fuel (i + 1)) ∧
    (∀ e, e ≠ ArbError.IncorrectFormat →
      ArbValueTree.new dec (fill_bytes rng i s.size) = .error e →
      ArbStrategy.new_tree s dec rng reject toStr (fuel + 1) i =
        some (.error (toStr e))) := by
  refine ⟨by simp [fill_bytes], ?_, ?_, ?_⟩
  · intro v hv
    unfold ArbStrategy.new_tree
    rw [hv]
  · intro hd hr
    conv_lhs => unfold ArbStrategy.new_tree
    rw [hd, hr]
  · intro e he hd
    unfold ArbStrategy.new_tree
    rw [hd]
    cases e with
    | EmptyChoose => rfl
    | NotEnoughData => rfl
    | IncorrectFormat => exact absurd rfl he

/-- C4 witness: the three loop outcomes at concrete decoders. -/
theorem new_tree_loop_cases_witness :
    ArbStrategy.new_tree (ArbStrategy.new 1) decLen rngZero rejOk errStr 1 0 =
      some (.ok { bytes := [0], curr := 1, prev := none, next := 1 }) ∧
    ArbStrategy.new_tree (ArbStrategy.new 1) decReject rngZero rejOk errStr 2 0 =
      ArbStrategy.new_tree (ArbStrategy.new 1) decReject rngZero rejOk errStr 1 1 ∧
    ArbStrategy.new_tree (ArbStrategy.new 1) decFatal rngZero rejOk errStr 1 0 =
      some (.error (errStr .NotEnoughData)) :=
  ⟨(new_tree_loop_cases (ArbStrategy.new 1) decLen rngZero rejOk errStr 0 0).2.1
      { bytes := [0], curr := 1, prev := none, next := 1 } rfl,
    (new_tree_loop_cases (ArbStrategy.new 1) decReject rngZero rejOk errStr 1 0).2.2.1
      rfl rfl,
    (new_tree_loop_cases (ArbStrategy.new 1) decFatal rngZero rejOk errStr 0 0).2.2.2
      .NotEnoughData (by decide) rfl⟩

/-- C10: if the local-rejection call made for an `IncorrectFormat` decode
failure itself returns an error, `new_tree` propagates that error to the
caller instead of looping again. -/
theorem new_tree_reject_abort_propagates {α : Type} (s : ArbStrategy)
    (dec : Decoder α) (rng : Nat → Nat → Byte)
    (reject : Nat → String → Except String Unit) (toStr : ArbError → String)
    (fuel i : Nat) (msg : String)
    (hd : ArbValueTree.new dec (fill_bytes rng i s.size) = .error .IncorrectFormat)
    (hr : reject i (toStr .IncorrectFormat) = .error msg) :
    ArbStrategy.new_tree s dec rng reject toStr (fuel + 1) i =
      some (.error msg) := by
  unfold ArbStrategy.new_tree
  rw [hd, hr]

/-- C10 witness: an always-rejecting decoder together with an exhausted
rejection budget aborts `new_tree` with the budget message. -/
theorem new_tree_reject_abort_propagates_witness :
    ArbStrategy.new_tree (ArbStrategy.new 1) decReject rngZero rejAbort errStr 3 0 =
      some (.error "too many local rejects") :=
  new_tree_reject_abort_propagates (ArbStrategy.new 1) decReject rngZero
    rejAbort errStr 2 0 "too many local rejects" rfl rfl

/-- C8: `current()` always succeeds (it is a total function in this
embedding), returns a copy of the tree's `curr` field, and leaves every
field of the tree (`bytes`, `curr`, `prev`, `next`) unchanged. -/
theorem current_returns_curr_and_preserves_state {α : Type} (t : ArbValueTree α) :
    (ArbValueTree.current t).1 = t.curr ∧
    (ArbValueTree.current t).2.bytes = t.bytes ∧
    (ArbValueTree.current t).2.curr = t.curr ∧
    (ArbValueTree.current t).2.prev = t.prev ∧
    (ArbValueTree.current t).2.next = t.next :=
  ⟨rfl, rfl, rfl, rfl, rfl⟩

/-- C5: `arb()` uses the size hint's upper bound when present, otherwise
`max(2*low, 256)`; in particular hint `(4, some 10)` gives size 10 and
`(4, none)` gives size 256. -/
theorem arb_sizing_heuristic :
    (∀ low high : Nat, (arb (fun _ => (low, some high))).size = high) ∧
    (∀ low : Nat, (arb (fun _ => (low, none))).size = max (2 * low) 256) ∧
    (arb (fun _ => (4, some 10))).size = 10 ∧
    (arb (fun _ => (4, none))).size = 256 :=
  ⟨fun _ _ => rfl, fun _ => rfl, rfl, rfl⟩

/-- C6: `ArbValueTree::new` decodes the full buffer `bytes[0..len]`; on
success the tree has `next = bytes.length`, `bytes` the given buffer,
`curr` the decoded value and `prev = none`; on decode failure the error is
propagated unchanged. -/
theorem new_decodes_full_buffer {α : Type} (dec : Decoder α) (bytes : List Byte) :
    ArbValueTree.gen_one_with_size dec bytes bytes.length = dec bytes ∧
    (∀ t, ArbValueTree.new dec bytes = .ok t →
      t.bytes = bytes ∧ t.next = bytes.length ∧
      dec bytes = .ok t.curr ∧ t.prev = none) ∧
    (∀ e, dec bytes = .error e → ArbValueTree.new dec bytes = .error e) := by
  have hfull : ArbValueTree.gen_one_with_size dec bytes bytes.length = dec bytes := by
    simp [ArbValueTree.gen_one_with_size]
  refine ⟨hfull, ?_, ?_⟩
  · intro t ht
    unfold ArbValueTree.new at ht
    rw [hfull] at ht
    cases hd : dec bytes with
    | error e => rw [hd] at ht; exact absurd ht (by simp)
    | ok v =>
      rw [hd] at ht
      simp only [Except.ok.injEq] at ht
      subst ht
      refine ⟨rfl, rfl, ?_, rfl⟩
      simp [hd]
  · intro e he
    unfold ArbValueTree.new
    rw [hfull, he]

/-- C6 witness: the success and failure branches at concrete inputs. -/
theorem new_decodes_full_buffer_witness :
    ((ArbValueTree.new decLen [0, 0] = .ok t2 →
        t2.bytes = [0, 0] ∧ t2.next = ([0, 0] : List Byte).length ∧
        decLen [0, 0] = .ok t2.curr ∧ t2.prev = none) ∧
      (decFatal [0] = .error .NotEnoughData →
        ArbValueTree.new decFatal [0] = .error .NotEnoughData)) ∧
    t2.curr = 2 ∧ ArbValueTree.new decFatal [0] = .error .NotEnoughData :=
  ⟨⟨(new_decodes_full_buffer decLen [0, 0]).2.1 t2,
    (new_decodes_full_buffer decFatal [0]).2.2 .NotEnoughData⟩,
    rfl, (new_decodes_full_buffer decFatal [0]).2.2 .NotEnoughData rfl⟩

/-- C7: constructing two value trees from identical byte buffers (with the
same pure decoder) yields trees whose `current()` values are equal. -/
theorem construction_deterministic {α : Type} (dec : Decoder α)
    (b1 b2 : List Byte) (hb : b1 = b2) (u1 u2 : ArbValueTree α)
    (h1 : ArbValueTree.new dec b1 = .ok u1)
    (h2 : ArbValueTree.new dec b2 = .ok u2) :
    (ArbValueTree.current u1).1 = (ArbValueTree.current u2).1 := by
  subst hb
  rw [h1] at h2
  simp only [Except.ok.injEq] at h2
  rw [h2]

/-- C7 witness: two constructions from the buffer `[0, 0]` agree. -/
theorem construction_deterministic_witness :
    (ArbValueTree.current t2).1 = (ArbValueTree.current t2).1 :=
  construction_deterministic decLen [0, 0] [0, 0] rfl t2 t2 (by rfl) (by rfl)

end PropArb
